import Mathlib

/-!
# Verification of the ingredient-to-product search core of vibe-rsla

Shallow embedding of `server/src/services/productSearchService.ts`
(`ProductSearchService`) and the relevant parts of
`server/src/services/ingredientParserService.ts` (`IngredientParserService`).

Modelling conventions:
* JS strings are modelled as `List Char` (`Str`); `String.prototype.toLowerCase`
  is modelled per-character by `Char.toLower` (exact for the ASCII range that
  the regexes `\w`, `\s` of the source operate on).
* JS numbers (prices, scores) are modelled as `ℚ`; the score constants
  `1.0`, `0.8`, `0.6`, `0.1` of the source are the rationals `1`, `4/5`,
  `3/5`, `1/10`.  The source evaluates scores in IEEE doubles; every
  concrete input used by a theorem below is chosen so that each comparison
  sits far from the `0.1` decision boundaries (margins around `0.014`,
  versus rounding errors around `1e-16`), so double and rational evaluation
  decide every branch identically on those inputs.
* The two I/O boundaries (the Drizzle/PostgreSQL query issued by
  `searchDatabase`, and the Open Food Facts HTTP call issued by
  `searchOpenFoodFacts`) are modelled by a `SearchEnv` record carrying each
  call's outcome: either a thrown error (`Except.error`) or the row list the
  remote side answers with.  For the database call the environment holds the
  rows *matching the constructed WHERE clause, in table order*; the `LIMIT 20`
  of the source is part of the modelled code (`List.take 20`), not of the
  environment.
* `Array.prototype.sort(comparator)` is modelled by a stable insertion sort
  driven by the same comparator.  (ECMAScript only fixes the result up to the
  comparator being consistent; the source comparator is inconsistent, which is
  exactly what the ranking theorems below are about.)
-/

/-- JS strings, modelled as lists of characters. -/
abbrev Str := List Char

/-- The character class of the regex `\s` (JS whitespace, ASCII part). -/
def isSpaceChar (c : Char) : Bool :=
  c = ' ' || c = '\t' || c = '\n' || c = '\r' || c = '\x0b' || c = '\x0c'

/-- The character class of the regex `\w`: `[A-Za-z0-9_]`. -/
def isWordChar (c : Char) : Bool :=
  c.isAlphanum || c = '_'

/-- `String.prototype.toLowerCase` (per character, ASCII). -/
def lowerStr (s : Str) : Str := s.map Char.toLower

/-- `String.prototype.trim`: drop whitespace from both ends. -/
def trimStr (s : Str) : Str :=
  ((s.dropWhile isSpaceChar).reverse.dropWhile isSpaceChar).reverse

/-- `.replace(/\s+/g, " ")`: each maximal whitespace run becomes one space
(inside a run every character but the last is dropped; the last one becomes
`' '`). -/
def collapseWs : Str → Str
  | [] => []
  | [c] => if isSpaceChar c then [' '] else [c]
  | c :: d :: cs =>
    if isSpaceChar c then
      if isSpaceChar d then collapseWs (d :: cs)
      else ' ' :: collapseWs (d :: cs)
    else c :: collapseWs (d :: cs)

/-- `.replace(/[^\w\s]/g, "")`: keep only word characters and whitespace. -/
def stripPunct (s : Str) : Str :=
  s.filter (fun c => isWordChar c || isSpaceChar c)

/-- `IngredientParserService.normalizeIngredientName`:
`name.toLowerCase().trim().replace(/\s+/g, " ").replace(/[^\w\s]/g, "")`. -/
def normalizeIngredientName (s : Str) : Str :=
  stripPunct (collapseWs (trimStr (lowerStr s)))

/-- `String.prototype.split(sep)` for a single-character separator: empty
pieces are kept, and splitting the empty string yields `[""]`. -/
def splitOnChar (sep : Char) : Str → List Str
  | [] => [[]]
  | c :: cs =>
    if c = sep then [] :: splitOnChar sep cs
    else
      match splitOnChar sep cs with
      | [] => [[c]]
      | w :: ws => (c :: w) :: ws

/-- The static alias table of `IngredientParserService.getIngredientSynonyms`,
entry for entry. -/
def synonymTable : List (Str × List Str) :=
  [ ("eggplant".toList, ["aubergine".toList, "brinjal".toList])
  , ("zucchini".toList, ["courgette".toList])
  , ("bell pepper".toList, ["capsicum".toList, "sweet pepper".toList])
  , ("cilantro".toList, ["coriander".toList, "fresh coriander".toList])
  , ("scallion".toList, ["green onion".toList, "spring onion".toList])
  , ("arugula".toList, ["rocket".toList, "rucola".toList])
  , ("beetroot".toList, ["beet".toList])
  , ("courgette".toList, ["zucchini".toList])
  , ("aubergine".toList, ["eggplant".toList, "brinjal".toList])
  , ("capsicum".toList, ["bell pepper".toList, "sweet pepper".toList])
  , ("coriander".toList, ["cilantro".toList])
  , ("rocket".toList, ["arugula".toList, "rucola".toList])
  , ("beet".toList, ["beetroot".toList]) ]

/-- `String.prototype.includes`: `needle` occurs contiguously in `hay`. -/
def isSubstr (needle : Str) : Str → Bool
  | [] => needle.isEmpty
  | c :: t => needle.isPrefixOf (c :: t) || isSubstr needle t

/-- `IngredientParserService.getIngredientSynonyms`: normalize the name, look
it up in the static table, return `[]` when there is no entry. -/
def getIngredientSynonyms (name : Str) : List Str :=
  (synonymTable.lookup (normalizeIngredientName name)).getD []

/-- `ProductSearchService.calculateMatchScore`, with JS numbers as `ℚ`. -/
def calculateMatchScore (productName ingredientName : Str) : ℚ :=
  let normalizedProduct := normalizeIngredientName productName
  let normalizedIngredient := normalizeIngredientName ingredientName
  if normalizedProduct = normalizedIngredient then 1
  else if isSubstr normalizedIngredient normalizedProduct then 4/5
  else
    let words := splitOnChar ' ' normalizedProduct
    let ingredientWords := splitOnChar ' ' normalizedIngredient
    let matchingWords :=
      ingredientWords.filter (fun word => words.any (fun productWord => isSubstr word productWord))
    if 0 < matchingWords.length then
      (3/5) * ((matchingWords.length : ℚ) / (ingredientWords.length : ℚ))
    else 0

/-- `store` sub-record of a search result (`{ id, name, domain }`). -/
structure StoreRef where
  id : Str
  name : Str
  domain : Str
deriving DecidableEq, Repr

/-- One row of the `products ⋈ stores` projection selected by
`ProductSearchService.searchDatabase`.  Nullable columns are `Option`s. -/
structure DbRow where
  id : Str
  name : Str
  brand : Option Str
  price : Option ℚ
  currency : Str
  imageUrl : Option Str
  productUrl : Str
  packageSize : Option Str
  unit : Option Str
  lastUpdated : Int
  store : StoreRef
deriving DecidableEq, Repr

/-- `ProductSearchResult` of `productSearchService.ts`. -/
structure ProductSearchResult where
  id : Str
  name : Str
  brand : Option Str
  price : Option ℚ
  currency : Str
  imageUrl : Option Str
  productUrl : Str
  store : StoreRef
  matchScore : ℚ
  packageSize : Option Str
  unit : Option Str
deriving DecidableEq, Repr

/-- One raw product object of an Open Food Facts search response
(the fields `searchOpenFoodFacts` reads). -/
structure OffProduct where
  code : Option Str
  product_name : Option Str
  generic_name : Option Str
  brands : Option Str
  image_front_url : Option Str
  quantity : Option Str
deriving DecidableEq, Repr

/-- `ProductSearchOptions` of `productSearchService.ts`. -/
structure ProductSearchOptions where
  maxResults : Option Nat := none
  minPrice : Option ℚ := none
  maxPrice : Option ℚ := none
  preferredBrands : Option (List Str) := none
  organic : Option Bool := none
  glutenFree : Option Bool := none
deriving DecidableEq, Repr

/-- Outcome of the two I/O calls a single `searchProducts` invocation makes.
`dbRows` is the database's answer: the joined rows matching the WHERE clause
built by `searchDatabase`, in table order (the `LIMIT 20` is modelled in
`searchDatabase` itself); `Except.error` is a thrown/rejected call.
`offRows` is the Open Food Facts HTTP response's `products` array, or a
failed request.  `amazonConfigured` is whether both `AMAZON_ACCESS_KEY` and
`AMAZON_SECRET_KEY` are set. -/
structure SearchEnv where
  dbRows : Except Unit (List DbRow)
  offRows : Except Unit (List OffProduct)
  amazonConfigured : Bool

/-- JS truthiness check `x || undefined` on an optional number:
`0` is falsy and becomes `undefined`. -/
def numOrUndef (x : Option ℚ) : Option ℚ :=
  match x with
  | some p => if p = 0 then none else some p
  | none => none

/-- JS truthiness check `x || undefined` on an optional string:
`""` is falsy and becomes `undefined`. -/
def strOrUndef (x : Option Str) : Option Str :=
  match x with
  | some s => if s = [] then none else some s
  | none => none

/-- The row-to-result mapping at the end of
`ProductSearchService.searchDatabase` (`ingredientName` there is the already
normalized name passed by `searchProducts`). -/
def dbRowToResult (ingredientName : Str) (product : DbRow) : ProductSearchResult :=
  { id := product.id
    name := product.name
    brand := strOrUndef product.brand
    price := numOrUndef product.price
    currency := product.currency
    imageUrl := strOrUndef product.imageUrl
    productUrl := product.productUrl
    store := product.store
    matchScore := calculateMatchScore product.name ingredientName
    packageSize := strOrUndef product.packageSize
    unit := strOrUndef product.unit }

/-- `ProductSearchService.searchDatabase`: the WHERE clause (name/synonym
ILIKE patterns, optional price and brand pushdown, freshness window) is
evaluated by the database, whose matching rows are `dbRows`; the service
then takes `LIMIT 20` of them and maps each row to a result.  `synonyms` and
`options` shape only the remote query and are unused afterwards. -/
def searchDatabase (dbRows : List DbRow) (ingredientName : Str)
    (synonyms : List Str) (options : ProductSearchOptions) : List ProductSearchResult :=
  let _ := synonyms
  let _ := options
  (dbRows.take 20).map (dbRowToResult ingredientName)

/-- The response mapping of `ProductSearchService.searchOpenFoodFacts`.
`id` falls back to a synthetic `openfood_${Date.now()}_${Math.random()}`
string when `code` is falsy; the claims never read `id`, so the synthetic
value is modelled by a fixed placeholder. -/
def offToResult (ingredientName : Str) (product : OffProduct) : ProductSearchResult :=
  { id := (strOrUndef product.code).getD "openfood_synthetic".toList
    name := ((strOrUndef product.product_name).getD
      ((strOrUndef product.generic_name).getD ingredientName))
    brand := product.brands
    price := none
    currency := "USD".toList
    imageUrl := product.image_front_url
    productUrl := "https://world.openfoodfacts.org/product/".toList ++
      (match product.code with
       | some c => c
       | none => "undefined".toList)
    store :=
      { id := "openfood".toList
        name := "Open Food Facts".toList
        domain := "world.openfoodfacts.org".toList }
    matchScore := calculateMatchScore ((strOrUndef product.product_name).getD []) ingredientName
    packageSize := product.quantity
    unit := none }

/-- `ProductSearchService.searchOpenFoodFacts`: `options` only shapes the
HTTP request (`page_size`), whose response is `offRows`; a failed request is
caught and becomes `[]`. -/
def searchOpenFoodFacts (offRows : Except Unit (List OffProduct))
    (ingredientName : Str) (options : ProductSearchOptions) : List ProductSearchResult :=
  let _ := options
  match offRows with
  | .error _ => []
  | .ok products => products.map (offToResult ingredientName)

/-- `ProductSearchService.searchAmazonProducts`: unimplemented, returns `[]`. -/
def searchAmazonProducts (ingredientName : Str)
    (options : ProductSearchOptions) : List ProductSearchResult :=
  let _ := ingredientName
  let _ := options
  []

/-- `ProductSearchService.searchExternalAPIs`: Open Food Facts always, Amazon
only when configured; `searchOpenFoodFacts` catches its own errors, so the
surrounding try/catch never fires. -/
def searchExternalAPIs (env : SearchEnv) (ingredientName : Str)
    (options : ProductSearchOptions) : List ProductSearchResult :=
  searchOpenFoodFacts env.offRows ingredientName options ++
    (if env.amazonConfigured then searchAmazonProducts ingredientName options else [])

/-- JS truthiness of an optional number (`a.price && b.price`): defined and
nonzero. -/
def priceTruthy (x : Option ℚ) : Bool :=
  match x with
  | some p => p ≠ 0
  | none => false

/-- Lexicographic character-code comparison of two strings, the model of
`String.prototype.localeCompare` used on store names. -/
def lexCompareStr : Str → Str → Ordering
  | [], [] => .eq
  | [], _ :: _ => .lt
  | _ :: _, [] => .gt
  | a :: as, b :: bs =>
    if a < b then .lt else if b < a then .gt else lexCompareStr as bs

/-- The sign convention of a JS comparator result. -/
def ordToRat : Ordering → ℚ
  | .lt => -1
  | .eq => 0
  | .gt => 1

/-- The comparator passed to `.sort` in `ProductSearchService.rankProducts`:
score descending unless the scores are within `0.1` of each other, then price
ascending when both prices are truthy, then store name ascending. -/
def cmpProducts (a b : ProductSearchResult) : ℚ :=
  if 1/10 < |a.matchScore - b.matchScore| then b.matchScore - a.matchScore
  else if priceTruthy a.price && priceTruthy b.price then
    a.price.getD 0 - b.price.getD 0
  else ordToRat (lexCompareStr a.store.name b.store.name)

/-- Insert into a sorted-so-far list: `x` goes before the first element it
compares `≤ 0` against (stable for ties). -/
def insertCmp (le : α → α → Bool) (x : α) : List α → List α
  | [] => [x]
  | y :: ys => if le x y then x :: y :: ys else y :: insertCmp le x ys

/-- Stable comparison sort, the model of `Array.prototype.sort(comparator)`
(ECMAScript fixes the result only up to comparator consistency; any stable
comparison sort is an admissible model). -/
def sortCmp (le : α → α → Bool) : List α → List α
  | [] => []
  | x :: xs => insertCmp le x (sortCmp le xs)

/-- The boolean form of the comparator used by the sort model. -/
def cmpLe (a b : ProductSearchResult) : Bool :=
  cmpProducts a b ≤ 0

/-- `ProductSearchService.rankProducts`: recompute every score, drop scores
`≤ 0.1`, sort by `cmpProducts`.  `quantity`/`unit` are accepted and unused,
as in the source. -/
def rankProducts (products : List ProductSearchResult) (ingredientName : Str)
    (quantity : ℚ) (unit : Option Str) : List ProductSearchResult :=
  let _ := quantity
  let _ := unit
  let rescored := products.map (fun product =>
    { product with matchScore := calculateMatchScore product.name ingredientName })
  let kept := rescored.filter (fun product => decide ((1 : ℚ)/10 < product.matchScore))
  sortCmp cmpLe kept

/-- `options.maxResults || 10`: `undefined` and `0` are falsy. -/
def maxResultsOrDefault (options : ProductSearchOptions) : Nat :=
  match options.maxResults with
  | some n => if n = 0 then 10 else n
  | none => 10

/-- `ProductSearchService.searchProducts`: normalize, resolve synonyms, query
the database and the external APIs, rank the union, truncate.  The
surrounding try/catch rethrows any error as a generic
`Failed to search products` error, so a failed database call fails the whole
search; external failures were already absorbed. -/
def searchProducts (env : SearchEnv) (ingredientName : Str) (quantity : ℚ)
    (unit : Option Str) (options : ProductSearchOptions) :
    Except Unit (List ProductSearchResult) :=
  let normalizedName := normalizeIngredientName ingredientName
  let synonyms := getIngredientSynonyms ingredientName
  match env.dbRows with
  | .error e => .error e
  | .ok rows =>
    let dbResults := searchDatabase rows normalizedName synonyms options
    let apiResults := searchExternalAPIs env normalizedName options
    .ok (((rankProducts (dbResults ++ apiResults) normalizedName quantity unit)).take
      (maxResultsOrDefault options))

/-! ## Helper lemmas -/

theorem mem_insertCmp (le : α → α → Bool) (x a : α) :
    ∀ l : List α, a ∈ insertCmp le x l ↔ a = x ∨ a ∈ l := by
  intro l
  induction l with
  | nil => simp [insertCmp]
  | cons y ys ih =>
    by_cases h : le x y = true
    · simp [insertCmp, h]
    · simp only [insertCmp, h, Bool.false_eq_true, if_false, List.mem_cons, ih]
      tauto

theorem mem_sortCmp (le : α → α → Bool) (a : α) :
    ∀ l : List α, a ∈ sortCmp le l ↔ a ∈ l := by
  intro l
  induction l with
  | nil => simp [sortCmp]
  | cons x xs ih => simp [sortCmp, mem_insertCmp, ih]

theorem lookup_mem {k : Str} {v : List Str} {l : List (Str × List Str)}
    (h : l.lookup k = some v) : (k, v) ∈ l := by
  induction l with
  | nil => simp [List.lookup] at h
  | cons p rest ih =>
    rw [List.lookup] at h
    cases hk : (k == p.1) with
    | true =>
      rw [hk] at h
      cases h
      have hkey : k = p.1 := eq_of_beq hk
      have : (k, p.2) = p := by rw [hkey]
      rw [this]
      exact List.mem_cons_self _ _
    | false =>
      rw [hk] at h
      exact List.mem_cons_of_mem _ (ih h)

theorem splitOnChar_ne_nil (sep : Char) : ∀ s : Str, splitOnChar sep s ≠ [] := by
  intro s
  cases s with
  | nil => simp [splitOnChar]
  | cons c cs =>
    rw [splitOnChar]
    by_cases h : c = sep
    · simp [h]
    · simp only [h, if_false]
      cases splitOnChar sep cs <;> simp

/-! ## Claims about the pipeline -/

/-- C10: the Local Catalog Source (the database query of `searchDatabase`)
contributes at most 20 candidates — `LIMIT 20` — however many rows match;
rows beyond the first 20 never reach scoring and ranking. -/
theorem searchDatabase_limit_twenty :
    ∀ (rows : List DbRow) (name : Str) (syns : List Str) (opts : ProductSearchOptions)
      (offR : Except Unit (List OffProduct)) (amz : Bool) (iname : Str) (q : ℚ) (u : Option Str),
      (searchDatabase rows name syns opts).length ≤ 20 ∧
      searchDatabase rows name syns opts = searchDatabase (rows.take 20) name syns opts ∧
      searchProducts ⟨.ok rows, offR, amz⟩ iname q u opts =
        searchProducts ⟨.ok (rows.take 20), offR, amz⟩ iname q u opts := by
  intro rows name syns opts offR amz iname q u
  refine ⟨?_, ?_, ?_⟩
  · simp only [searchDatabase, List.length_map, List.length_take]
    omega
  · simp [searchDatabase, List.take_take]
  · simp [searchProducts, searchDatabase, searchExternalAPIs, List.take_take]

/-- C2 (counterexample): with the database succeeding with zero matches and
the external source failing, `searchProducts` returns an empty *success* —
an empty result list does not imply every source succeeded, and no
`SearchUnavailable` distinction exists. -/
theorem searchProducts_empty_success_despite_failure :
    searchProducts ⟨.ok [], .error (), false⟩ "flour".toList 1 none {} = .ok [] := by
  rfl

/-- C2 (amended): `searchProducts` fails exactly when the database call
fails; external-source failures never make the search fail, so an empty
success can coexist with a failed external source. -/
theorem searchProducts_error_iff_db_error :
    ∀ (env : SearchEnv) (i : Str) (q : ℚ) (u : Option Str) (o : ProductSearchOptions),
      searchProducts env i q u o = .error () ↔ env.dbRows = .error () := by
  intro env i q u o
  rcases env with ⟨db, offR, amz⟩
  cases db with
  | error e => cases e; simp [searchProducts]
  | ok rows => simp [searchProducts]

/-- C1 (counterexample): the Open Food Facts source returns a candidate, the
database source throws — yet `searchProducts` throws instead of returning the
successful source's candidates (and there is no `degradedSources` report at
all: the result type carries none). -/
theorem searchProducts_db_failure_discards_external :
    searchOpenFoodFacts
        (.ok [{ code := some "111".toList, product_name := some "flour".toList,
                generic_name := none, brands := none, image_front_url := none,
                quantity := none }])
        "flour".toList {} ≠ [] ∧
    searchProducts
        ⟨.error (),
         .ok [{ code := some "111".toList, product_name := some "flour".toList,
                generic_name := none, brands := none, image_front_url := none,
                quantity := none }],
         false⟩ "flour".toList 1 none {} = .error () := by
  constructor
  · simp [searchOpenFoodFacts]
  · rfl

/-- C1 (amended): failure isolation is one-directional.  If the external
source fails, its failure is silently absorbed and the database candidates
are returned (nothing records the degradation); if the database source
fails, the entire search throws, discarding any external candidates. -/
theorem searchProducts_failure_isolation :
    ∀ (rows : List DbRow) (offR : Except Unit (List OffProduct)) (amz : Bool)
      (i : Str) (q : ℚ) (u : Option Str) (o : ProductSearchOptions),
      searchProducts ⟨.ok rows, .error (), amz⟩ i q u o =
        .ok ((rankProducts
          (searchDatabase rows (normalizeIngredientName i) (getIngredientSynonyms i) o)
          (normalizeIngredientName i) q u).take (maxResultsOrDefault o)) ∧
      searchProducts ⟨.error (), offR, amz⟩ i q u o = .error () := by
  intro rows offR amz i q u o
  constructor
  · cases amz <;>
      simp [searchProducts, searchExternalAPIs, searchOpenFoodFacts, searchAmazonProducts]
  · rfl

/-- A sample catalog row used by the concrete theorems below. -/
def dbRowFlour : DbRow :=
  { id := "p1".toList, name := "Flour".toList, brand := none, price := some 2,
    currency := "USD".toList, imageUrl := none, productUrl := "https://one.test/p1".toList,
    packageSize := none, unit := none, lastUpdated := 0,
    store := { id := "s1".toList, name := "Store One".toList, domain := "one.test".toList } }

unseal Rat.mul Rat.inv Rat.add Rat.sub in
/-- C3 (counterexample): a query name that canonicalizes to the empty string
is not rejected — no `InvalidQuery` exists.  The empty canonical name is
passed to the sources (the database's `ILIKE '%%'` pattern matches every
row) and the row comes back as a result, scored by the empty-substring rule. -/
theorem searchProducts_empty_name_not_rejected :
    normalizeIngredientName "!!!".toList = [] ∧
    searchProducts ⟨.ok [dbRowFlour], .ok [], false⟩ "!!!".toList 1 none {} =
      .ok [dbRowToResult [] dbRowFlour] ∧
    (dbRowToResult [] dbRowFlour).matchScore = 4/5 := by
  refine ⟨by decide, by rfl, by decide⟩

/-- C3 (amended): `searchProducts` performs no validation of the canonical
name: when it is empty, the search proceeds exactly like any other — the
empty string is handed to both sources and their answers are ranked and
returned; no error is ever raised for it. -/
theorem searchProducts_no_query_validation :
    ∀ (rows : List DbRow) (offR : Except Unit (List OffProduct)) (amz : Bool)
      (i : Str) (q : ℚ) (u : Option Str) (o : ProductSearchOptions),
      normalizeIngredientName i = [] →
      searchProducts ⟨.ok rows, offR, amz⟩ i q u o =
        .ok ((rankProducts
          (searchDatabase rows [] (getIngredientSynonyms i) o ++
            searchExternalAPIs ⟨.ok rows, offR, amz⟩ [] o) [] q u).take
          (maxResultsOrDefault o)) := by
  intro rows offR amz i q u o h
  simp [searchProducts, h]

/-- Witness for `searchProducts_no_query_validation` at the concrete
query `"!!!"`. -/
theorem searchProducts_no_query_validation_witness :
    searchProducts ⟨.ok [dbRowFlour], .ok [], false⟩ "!!!".toList 1 none {} =
      .ok ((rankProducts
        (searchDatabase [dbRowFlour] [] (getIngredientSynonyms "!!!".toList) {} ++
          searchExternalAPIs ⟨.ok [dbRowFlour], .ok [], false⟩ [] {}) [] 1 none).take
        (maxResultsOrDefault {})) :=
  searchProducts_no_query_validation [dbRowFlour] (.ok []) false "!!!".toList 1 none {}
    (by decide)

/-- Every alias string stored in the table is a fixed point of the
normalizer (all lowercase words separated by single spaces). -/
theorem synonymTable_values_normalized :
    ∀ p ∈ synonymTable, ∀ b ∈ p.2, normalizeIngredientName b = b := by
  decide

/-- Finite check: whenever a table value `b` has an entry of its own, that
entry lists the key it came from. -/
theorem synonymTable_keyed_values_symmetric :
    ∀ p ∈ synonymTable, ∀ b ∈ p.2,
      (synonymTable.lookup b).isSome = true →
      p.1 ∈ (synonymTable.lookup b).getD [] := by
  decide

/-- C9 (counterexample): the alias table is not symmetric — `"brinjal"` is
listed among the synonyms of `"eggplant"`, but `"brinjal"` has no entry of
its own, so looking it up yields `[]`, which does not contain
`"eggplant"`. -/
theorem synonymTable_asymmetric :
    "brinjal".toList ∈ getIngredientSynonyms "eggplant".toList ∧
    getIngredientSynonyms "brinjal".toList = [] := by
  constructor
  · decide
  · decide

/-- C9 (amended): symmetry holds for the names that have entries of their
own (the secondary aliases `brinjal`, `sweet pepper`, `fresh coriander`,
`green onion`, `spring onion`, `rucola` have none); and looking up any name
without an entry returns the empty list rather than failing. -/
theorem getIngredientSynonyms_spec :
    (∀ a b : Str, b ∈ getIngredientSynonyms a →
      (synonymTable.lookup b).isSome = true →
      normalizeIngredientName a ∈ getIngredientSynonyms b) ∧
    (∀ n : Str, synonymTable.lookup (normalizeIngredientName n) = none →
      getIngredientSynonyms n = []) := by
  constructor
  · intro a b hb hsome
    unfold getIngredientSynonyms at hb
    cases hl : synonymTable.lookup (normalizeIngredientName a) with
    | none => rw [hl] at hb; simp at hb
    | some vs =>
      rw [hl] at hb
      simp only [Option.getD_some] at hb
      have hmem : (normalizeIngredientName a, vs) ∈ synonymTable := lookup_mem hl
      have hval := synonymTable_keyed_values_symmetric _ hmem b hb hsome
      have hnorm := synonymTable_values_normalized _ hmem b hb
      unfold getIngredientSynonyms
      rw [hnorm]
      exact hval
  · intro n h
    unfold getIngredientSynonyms
    rw [h]
    rfl

/-- Witness for `getIngredientSynonyms_spec` at
`a = "eggplant"`, `b = "aubergine"`. -/
theorem getIngredientSynonyms_spec_witness :
    "eggplant".toList ∈ getIngredientSynonyms "aubergine".toList :=
  getIngredientSynonyms_spec.1 "eggplant".toList "aubergine".toList
    (by decide) (by decide)

/-- An Open Food Facts product used by the concrete theorems below. -/
def offRowAcme : OffProduct :=
  { code := some "111".toList, product_name := some "Flour".toList, generic_name := none,
    brands := some "acme".toList, image_front_url := none, quantity := none }

/-- Caller constraints used by the concrete theorems below. -/
def optsBrandPrice : ProductSearchOptions :=
  { maxPrice := some 3, preferredBrands := some ["other".toList] }

unseal Rat.mul Rat.inv Rat.add Rat.sub in
/-- C8 (counterexample): a candidate from the External Catalog Source is
returned although its brand (`acme`) is not among the caller's
`preferredBrands` (`other`) — no caller filter is applied outside the
database query.  Its price is `none` (Open Food Facts provides no pricing),
so `maxPrice` can never exclude an external candidate either. -/
theorem searchProducts_brand_filter_not_applied :
    searchProducts ⟨.ok [], .ok [offRowAcme], false⟩ "flour".toList 1 none optsBrandPrice =
      .ok [offToResult (normalizeIngredientName "flour".toList) offRowAcme] ∧
    (offToResult (normalizeIngredientName "flour".toList) offRowAcme).brand =
      some "acme".toList ∧
    optsBrandPrice.preferredBrands = some ["other".toList] ∧
    (offToResult (normalizeIngredientName "flour".toList) offRowAcme).price = none := by
  refine ⟨by rfl, by rfl, by rfl, by rfl⟩

/-- C8 (amended): the caller's price-range and preferred-brand constraints
are pushed down only into the database source's query; they are never
applied to external candidates.  With no database matches, the search output
does not depend on `minPrice`, `maxPrice` or `preferredBrands` at all, and
every Open Food Facts candidate is produced with `price = none`. -/
theorem external_candidates_unfiltered :
    ∀ (offRows : List OffProduct) (amz : Bool) (i : Str) (q : ℚ) (u : Option Str)
      (o o' : ProductSearchOptions), o.maxResults = o'.maxResults →
      searchProducts ⟨.ok [], .ok offRows, amz⟩ i q u o =
        searchProducts ⟨.ok [], .ok offRows, amz⟩ i q u o' ∧
      ∀ r ∈ searchOpenFoodFacts (.ok offRows) i o, r.price = none := by
  intro offRows amz i q u o o' hm
  constructor
  · simp [searchProducts, searchDatabase, searchExternalAPIs, searchOpenFoodFacts,
      searchAmazonProducts, maxResultsOrDefault, hm]
  · intro r hr
    simp only [searchOpenFoodFacts, List.mem_map] at hr
    obtain ⟨p, hp, hrr⟩ := hr
    rw [← hrr]
    rfl

/-- Witness for `external_candidates_unfiltered`: dropping the brand/price
constraints does not change the result for an external-only search. -/
theorem external_candidates_unfiltered_witness :
    searchProducts ⟨.ok [], .ok [offRowAcme], false⟩ "flour".toList 1 none optsBrandPrice =
      searchProducts ⟨.ok [], .ok [offRowAcme], false⟩ "flour".toList 1 none {} ∧
    ∀ r ∈ searchOpenFoodFacts (.ok [offRowAcme]) "flour".toList optsBrandPrice,
      r.price = none :=
  external_candidates_unfiltered [offRowAcme] false "flour".toList 1 none
    optsBrandPrice {} rfl

/-- The scoring rules exactly as the specification states them (§4.4),
taking the canonical name as given rather than re-normalizing it: the
comparison definition for the refinement theorem below. -/
def specMatchScore (candidateName canonical : Str) : ℚ :=
  let cand := normalizeIngredientName candidateName
  if cand = canonical then 1
  else if isSubstr canonical cand then 4/5
  else
    let candidateWords := splitOnChar ' ' cand
    let canonicalWords := splitOnChar ' ' canonical
    let matched :=
      (canonicalWords.filter (fun w => candidateWords.any (fun cw => isSubstr w cw))).length
    if 0 < matched then (3/5) * ((matched : ℚ) / (canonicalWords.length : ℚ)) else 0

/-- C5: the match scorer is pure and deterministic with values in `[0, 1]`,
and on canonical names (fixed points of the normalizer, which is what the
spec's `CanonicalName` invariant demands of the second argument) it applies
exactly the spec's rule cascade: canonical equality `1.0`; substring `0.8`;
word overlap `0.6 · matched/total`; otherwise `0`. -/
theorem calculateMatchScore_spec :
    ∀ productName canonical : Str,
      (0 ≤ calculateMatchScore productName canonical ∧
        calculateMatchScore productName canonical ≤ 1) ∧
      (normalizeIngredientName canonical = canonical →
        calculateMatchScore productName canonical = specMatchScore productName canonical) := by
  intro pn k
  constructor
  · simp only [calculateMatchScore]
    split_ifs with h1 h2 h3
    · norm_num
    · norm_num
    · have hn : 0 < (splitOnChar ' ' (normalizeIngredientName k)).length :=
        List.length_pos.mpr (splitOnChar_ne_nil ' ' (normalizeIngredientName k))
      have hmn : ((splitOnChar ' ' (normalizeIngredientName k)).filter
          (fun word => (splitOnChar ' ' (normalizeIngredientName pn)).any
            (fun productWord => isSubstr word productWord))).length ≤
          (splitOnChar ' ' (normalizeIngredientName k)).length :=
        List.length_filter_le _ _
      constructor
      · positivity
      · have hq : (((splitOnChar ' ' (normalizeIngredientName k)).filter
            (fun word => (splitOnChar ' ' (normalizeIngredientName pn)).any
              (fun productWord => isSubstr word productWord))).length : ℚ) /
            ((splitOnChar ' ' (normalizeIngredientName k)).length : ℚ) ≤ 1 := by
          rw [div_le_one (by exact_mod_cast hn)]
          exact_mod_cast hmn
        calc (3/5 : ℚ) * _ ≤ 3/5 * 1 := by
              apply mul_le_mul_of_nonneg_left hq
              norm_num
          _ ≤ 1 := by norm_num
    · norm_num
  · intro hk
    simp only [calculateMatchScore, specMatchScore, hk]

/-- Witness for `calculateMatchScore_spec` at the spec's own example
`score("Sugar", canonicalize("sugar"))`. -/
theorem calculateMatchScore_spec_witness :
    (0 ≤ calculateMatchScore "Sugar".toList "sugar".toList ∧
      calculateMatchScore "Sugar".toList "sugar".toList ≤ 1) ∧
    calculateMatchScore "Sugar".toList "sugar".toList =
      specMatchScore "Sugar".toList "sugar".toList :=
  ⟨(calculateMatchScore_spec "Sugar".toList "sugar".toList).1,
   (calculateMatchScore_spec "Sugar".toList "sugar".toList).2 (by decide)⟩

/-- C6: every candidate a successful search returns scored strictly above
the `0.1` inclusion threshold (the `> 0.1` filter of `rankProducts` runs
before sorting and truncation). -/
theorem searchProducts_results_above_threshold :
    ∀ (env : SearchEnv) (i : Str) (q : ℚ) (u : Option Str) (o : ProductSearchOptions)
      (out : List ProductSearchResult),
      searchProducts env i q u o = .ok out →
      ∀ r ∈ out, (1 : ℚ)/10 < r.matchScore := by
  intro env i q u o out h r hr
  rcases env with ⟨db, offR, amz⟩
  cases db with
  | error e => simp [searchProducts] at h
  | ok rows =>
    simp only [searchProducts] at h
    cases h
    have hr2 := List.mem_of_mem_take hr
    simp only [rankProducts] at hr2
    have hr3 := (mem_sortCmp cmpLe r _).mp hr2
    have hr4 := List.mem_filter.mp hr3
    exact of_decide_eq_true hr4.2

unseal Rat.mul Rat.inv Rat.add Rat.sub in
/-- Witness for `searchProducts_results_above_threshold` on a one-row
catalog. -/
theorem searchProducts_results_above_threshold_witness :
    (1 : ℚ)/10 <
      (dbRowToResult (normalizeIngredientName "flour".toList) dbRowFlour).matchScore :=
  searchProducts_results_above_threshold ⟨.ok [dbRowFlour], .ok [], false⟩
    "flour".toList 1 none {}
    [dbRowToResult (normalizeIngredientName "flour".toList) dbRowFlour] (by rfl)
    (dbRowToResult (normalizeIngredientName "flour".toList) dbRowFlour) (by simp)

/-! ## The ranking comparator and the sort order -/

theorem lexCompareStr_swap (a : Str) :
    ∀ b : Str, ordToRat (lexCompareStr a b) = -(ordToRat (lexCompareStr b a)) := by
  induction a with
  | nil =>
    intro b
    cases b <;> simp [lexCompareStr, ordToRat]
  | cons x xs ih =>
    intro b
    cases b with
    | nil => simp [lexCompareStr, ordToRat]
    | cons y ys =>
      by_cases h1 : x < y
      · have h2 : ¬ y < x := lt_asymm h1
        simp [lexCompareStr, h1, h2, ordToRat]
      · by_cases h2 : y < x
        · simp [lexCompareStr, h1, h2, ordToRat]
        · simp [lexCompareStr, h1, h2, ih ys]

theorem cmpProducts_antisymm (a b : ProductSearchResult) :
    cmpProducts a b = -(cmpProducts b a) := by
  rw [cmpProducts, cmpProducts, abs_sub_comm b.matchScore a.matchScore,
    Bool.and_comm (priceTruthy b.price) (priceTruthy a.price)]
  by_cases h1 : 1/10 < |a.matchScore - b.matchScore|
  · rw [if_pos h1, if_pos h1]
    ring
  · rw [if_neg h1, if_neg h1]
    by_cases h2 : (priceTruthy a.price && priceTruthy b.price) = true
    · rw [if_pos h2, if_pos h2]
      ring
    · rw [if_neg h2, if_neg h2]
      exact lexCompareStr_swap _ _

theorem cmpLe_total (a b : ProductSearchResult) : cmpLe a b = true ∨ cmpLe b a = true := by
  unfold cmpLe
  rcases le_total (cmpProducts a b) 0 with h | h
  · left
    exact decide_eq_true h
  · right
    apply decide_eq_true
    rw [cmpProducts_antisymm b a]
    linarith

theorem chain_insertCmp {α} (le : α → α → Bool)
    (htot : ∀ a b, le a b = true ∨ le b a = true) (x : α) :
    ∀ l : List α, List.Chain' (fun a b => le a b = true) l →
      List.Chain' (fun a b => le a b = true) (insertCmp le x l) := by
  intro l
  induction l with
  | nil =>
    intro _
    simp [insertCmp]
  | cons y ys ih =>
    intro hc
    rw [insertCmp]
    by_cases h : le x y = true
    · rw [if_pos h]
      exact List.chain'_cons.mpr ⟨h, hc⟩
    · rw [if_neg h]
      have hyx : le y x = true := (htot x y).resolve_left h
      have hc2 := hc.tail
      cases ys with
      | nil =>
        simp only [insertCmp]
        exact List.chain'_cons.mpr ⟨hyx, List.chain'_singleton x⟩
      | cons z zs =>
        rw [insertCmp]
        by_cases h2 : le x z = true
        · rw [if_pos h2]
          refine List.chain'_cons.mpr ⟨hyx, ?_⟩
          have hin := ih hc2
          rw [insertCmp, if_pos h2] at hin
          exact hin
        · rw [if_neg h2]
          refine List.chain'_cons.mpr ⟨(List.chain'_cons.mp hc).1, ?_⟩
          have hin := ih hc2
          rw [insertCmp, if_neg h2] at hin
          exact hin

theorem chain_sortCmp {α} (le : α → α → Bool)
    (htot : ∀ a b, le a b = true ∨ le b a = true) :
    ∀ l : List α, List.Chain' (fun a b => le a b = true) (sortCmp le l) := by
  intro l
  induction l with
  | nil => simp [sortCmp]
  | cons x xs ih => exact chain_insertCmp le htot x _ ih

/-- The store shared by the three cyclic-comparator rows below. -/
def storeOne : StoreRef :=
  { id := "s1".toList, name := "Store One".toList, domain := "one.test".toList }

/-- Catalog rows whose scores against the seven-word query
`"aa bb cc dd ee ff gg"` come out `0.6`, `18/35` (~`0.514`) and `3/7`
(~`0.429`) with prices `3`, `2` and `1`: adjacent score pairs differ by
`3/35` (~`0.086`), within the `0.1` band (so price decides them), while the
extreme pair differs by `6/35` (~`0.171`), outside it (so score decides it),
making the comparator cyclic on the three candidates.  Every gap sits about
`0.014` or more away from the `0.1` boundary — more than thirteen orders of
magnitude above IEEE-double rounding error — so the source's double-precision
evaluation of `0.6 * (matched/total)` and of the band test makes exactly the
same tie/far decisions as this rational model. -/
def rowSevenWords : DbRow :=
  { id := "a".toList, name := "gg ff ee dd cc bb aa".toList, brand := none, price := some 3,
    currency := "USD".toList, imageUrl := none, productUrl := "u/a".toList,
    packageSize := none, unit := none, lastUpdated := 0, store := storeOne }

/-- Second cyclic row: six of the seven query words, price `2`. -/
def rowSixOfSeven : DbRow :=
  { id := "b".toList, name := "bb cc dd ee ff gg".toList, brand := none, price := some 2,
    currency := "USD".toList, imageUrl := none, productUrl := "u/b".toList,
    packageSize := none, unit := none, lastUpdated := 0, store := storeOne }

/-- Third cyclic row: five of the seven query words, price `1`. -/
def rowFiveOfSeven : DbRow :=
  { id := "c".toList, name := "cc dd ee ff gg".toList, brand := none, price := some 1,
    currency := "USD".toList, imageUrl := none, productUrl := "u/c".toList,
    packageSize := none, unit := none, lastUpdated := 0, store := storeOne }

/-- The candidate `rowSevenWords` maps to (score `0.6`). -/
def resSevenWords : ProductSearchResult :=
  dbRowToResult (normalizeIngredientName "aa bb cc dd ee ff gg".toList) rowSevenWords

/-- The candidate `rowSixOfSeven` maps to (score `18/35`). -/
def resSixOfSeven : ProductSearchResult :=
  dbRowToResult (normalizeIngredientName "aa bb cc dd ee ff gg".toList) rowSixOfSeven

/-- The candidate `rowFiveOfSeven` maps to (score `3/7`). -/
def resFiveOfSeven : ProductSearchResult :=
  dbRowToResult (normalizeIngredientName "aa bb cc dd ee ff gg".toList) rowFiveOfSeven

/-- The result list the pipeline returns for the three cyclic rows (the sort
model emits the `0.6`-scored row, then the `3/7` one, then the `18/35`
one). -/
def resultsCyclic : List ProductSearchResult := [resSevenWords, resFiveOfSeven, resSixOfSeven]

unseal Rat.mul Rat.inv Rat.add Rat.sub in
/-- C7 (counterexample): the returned list is *not* pairwise ordered by the
stated rule (score descending with a `0.1` tie band, then price, then store
name): the first and third returned candidates violate it.  Worse, the rule
admits no valid order at all here — every permutation of the returned
candidates violates it for some pair, because the `0.1` tie band is not
transitive. -/
theorem searchProducts_pairwise_order_impossible :
    searchProducts ⟨.ok [rowSevenWords, rowSixOfSeven, rowFiveOfSeven], .ok [], false⟩
        "aa bb cc dd ee ff gg".toList 1 none {} = .ok resultsCyclic ∧
    ¬ List.Pairwise (fun a b => cmpProducts a b ≤ 0) resultsCyclic ∧
    ¬ List.Pairwise (fun a b => cmpProducts a b ≤ 0)
        [resSevenWords, resSixOfSeven, resFiveOfSeven] ∧
    ¬ List.Pairwise (fun a b => cmpProducts a b ≤ 0)
        [resSixOfSeven, resSevenWords, resFiveOfSeven] ∧
    ¬ List.Pairwise (fun a b => cmpProducts a b ≤ 0)
        [resSixOfSeven, resFiveOfSeven, resSevenWords] ∧
    ¬ List.Pairwise (fun a b => cmpProducts a b ≤ 0)
        [resFiveOfSeven, resSevenWords, resSixOfSeven] ∧
    ¬ List.Pairwise (fun a b => cmpProducts a b ≤ 0)
        [resFiveOfSeven, resSixOfSeven, resSevenWords] := by
  refine ⟨by rfl, by decide, by decide, by decide, by decide, by decide, by decide⟩

/-- C7 (amended): the comparator (score descending except within the `0.1`
band, then price ascending when both prices are known and nonzero, then
store name) orders every *adjacent* pair of the returned list; it cannot
order every pair, since its tie band is not transitive
(`searchProducts_pairwise_order_impossible`). -/
theorem searchProducts_results_chain :
    ∀ (env : SearchEnv) (i : Str) (q : ℚ) (u : Option Str) (o : ProductSearchOptions)
      (out : List ProductSearchResult),
      searchProducts env i q u o = .ok out →
      List.Chain' (fun a b => cmpProducts a b ≤ 0) out := by
  intro env i q u o out h
  rcases env with ⟨db, offR, amz⟩
  cases db with
  | error e => simp [searchProducts] at h
  | ok rows =>
    simp only [searchProducts] at h
    cases h
    apply List.Chain'.take
    simp only [rankProducts]
    exact List.Chain'.imp (fun a b hab => of_decide_eq_true hab)
      (chain_sortCmp cmpLe cmpLe_total _)

unseal Rat.mul Rat.inv Rat.add Rat.sub in
/-- Witness for `searchProducts_results_chain` on the cyclic three-row
catalog. -/
theorem searchProducts_results_chain_witness :
    List.Chain' (fun a b => cmpProducts a b ≤ 0) resultsCyclic :=
  searchProducts_results_chain
    ⟨.ok [rowSevenWords, rowSixOfSeven, rowFiveOfSeven], .ok [], false⟩
    "aa bb cc dd ee ff gg".toList 1 none {} resultsCyclic (by rfl)

/-! ## Idempotence analysis of the canonicalizer -/

theorem toLower_toLower (c : Char) : c.toLower.toLower = c.toLower := by
  unfold Char.toLower
  by_cases h : c.toNat ≥ 65 ∧ c.toNat ≤ 90
  · rw [if_pos h]
    have hv : (c.toNat + 32).isValidChar := Or.inl (by omega)
    have ht : (Char.ofNat (c.toNat + 32)).toNat = c.toNat + 32 := by
      rw [Char.ofNat, dif_pos hv]
      rfl
    rw [ht, if_neg (by omega)]
  · rw [if_neg h, if_neg h]

theorem isWordChar_space_false (c : Char) (h : isSpaceChar c = true) :
    isWordChar c = false := by
  simp only [isSpaceChar, Bool.or_eq_true, decide_eq_true_eq] at h
  rcases h with ((((h | h) | h) | h) | h) | h <;> subst h <;> decide

theorem collapseWs_cons_nonspace (c : Char) (cs : Str) (h : isSpaceChar c = false) :
    collapseWs (c :: cs) = c :: collapseWs cs := by
  cases cs with
  | nil => simp [collapseWs, h]
  | cons d ds => simp [collapseWs, h]

theorem collapseWs_ne_nil (s : Str) (h : s ≠ []) : collapseWs s ≠ [] := by
  induction s using collapseWs.induct with
  | case1 => exact absurd rfl h
  | case2 c hc => simp [collapseWs, hc]
  | case3 c hc => simp [collapseWs, hc]
  | case4 c d cs h1 h2 ih => rw [collapseWs, if_pos h1, if_pos h2]; exact ih (by simp)
  | case5 c d cs h1 h2 ih => rw [collapseWs, if_pos h1, if_neg h2]; simp
  | case6 c d cs h1 ih => rw [collapseWs, if_neg h1]; simp

theorem mem_collapseWs (x : Char) :
    ∀ s : Str, x ∈ collapseWs s → x = ' ' ∨ (x ∈ s ∧ isSpaceChar x = false) := by
  intro s
  induction s using collapseWs.induct with
  | case1 => simp [collapseWs]
  | case2 c hc =>
    rw [collapseWs, if_pos hc]
    intro hx
    exact Or.inl (List.mem_singleton.mp hx)
  | case3 c hc =>
    rw [collapseWs, if_neg hc]
    intro hx
    have := List.mem_singleton.mp hx
    subst this
    exact Or.inr ⟨List.mem_singleton.mpr rfl, by simpa using hc⟩
  | case4 c d cs h1 h2 ih =>
    rw [collapseWs, if_pos h1, if_pos h2]
    intro hx
    rcases ih hx with h | ⟨h3, h4⟩
    · exact Or.inl h
    · exact Or.inr ⟨List.mem_cons_of_mem _ h3, h4⟩
  | case5 c d cs h1 h2 ih =>
    rw [collapseWs, if_pos h1, if_neg h2]
    intro hx
    rcases List.mem_cons.mp hx with h | h
    · exact Or.inl h
    · rcases ih h with h | ⟨h3, h4⟩
      · exact Or.inl h
      · exact Or.inr ⟨List.mem_cons_of_mem _ h3, h4⟩
  | case6 c d cs h1 ih =>
    rw [collapseWs, if_neg h1]
    intro hx
    rcases List.mem_cons.mp hx with h | h
    · subst h
      exact Or.inr ⟨List.mem_cons_self _ _, by simpa using h1⟩
    · rcases ih h with h | ⟨h3, h4⟩
      · exact Or.inl h
      · exact Or.inr ⟨List.mem_cons_of_mem _ h3, h4⟩

/-- The string has no leading whitespace character. -/
def NoLeadSpace (s : Str) : Prop :=
  ∀ c, s.head? = some c → isSpaceChar c = false

/-- The string has no trailing whitespace character. -/
def NoTrailSpace (s : Str) : Prop :=
  ∀ c, s.getLast? = some c → isSpaceChar c = false

/-- No two adjacent characters are both whitespace. -/
def NoAdjSpace (s : Str) : Prop :=
  List.Chain' (fun a b => (isSpaceChar a && isSpaceChar b) = false) s

/-- Every character is a word character or a plain space, and is fixed under
lowercasing: the character-level invariant of canonicalizer output. -/
def GoodChars (s : Str) : Prop :=
  ∀ c ∈ s, (isWordChar c || c = ' ') = true ∧ Char.toLower c = c

theorem head_dropWhile_not (p : Char → Bool) :
    ∀ (l : Str) (c : Char), (l.dropWhile p).head? = some c → p c = false := by
  intro l
  induction l with
  | nil => intro c h; simp [List.dropWhile] at h
  | cons x xs ih =>
    intro c h
    by_cases hx : p x = true
    · rw [List.dropWhile_cons_of_pos hx] at h
      exact ih c h
    · rw [List.dropWhile_cons_of_neg hx] at h
      simp only [List.head?_cons, Option.some.injEq] at h
      subst h
      simpa using hx

theorem trimStr_sublist (s : Str) : (trimStr s).Sublist s := by
  unfold trimStr
  have h1 := (List.dropWhile_sublist (l := (s.dropWhile isSpaceChar).reverse) isSpaceChar).reverse
  rw [List.reverse_reverse] at h1
  exact h1.trans (List.dropWhile_sublist isSpaceChar)

theorem mem_of_mem_trimStr {c : Char} {s : Str} (h : c ∈ trimStr s) : c ∈ s :=
  (trimStr_sublist s).subset h

theorem noLeadSpace_trimStr (s : Str) : NoLeadSpace (trimStr s) := by
  intro c hc
  unfold trimStr at hc
  have hpre : ((s.dropWhile isSpaceChar).reverse.dropWhile isSpaceChar).reverse <+:
      s.dropWhile isSpaceChar := by
    have hsuf := (s.dropWhile isSpaceChar).reverse.dropWhile_suffix isSpaceChar
    have := List.reverse_prefix.mpr hsuf
    rwa [List.reverse_reverse] at this
  obtain ⟨t, ht⟩ := hpre
  apply head_dropWhile_not isSpaceChar s c
  rw [← ht]
  cases hrev : ((s.dropWhile isSpaceChar).reverse.dropWhile isSpaceChar).reverse with
  | nil => rw [hrev] at hc; simp at hc
  | cons a l =>
    rw [hrev] at hc
    simp only [List.head?_cons, Option.some.injEq] at hc
    subst hc
    simp

theorem noTrailSpace_trimStr (s : Str) : NoTrailSpace (trimStr s) := by
  intro c hc
  unfold trimStr at hc
  rw [List.getLast?_reverse] at hc
  exact head_dropWhile_not isSpaceChar _ c hc

theorem noLeadSpace_collapseWs {s : Str} (h : NoLeadSpace s) :
    NoLeadSpace (collapseWs s) := by
  intro c hc
  cases s with
  | nil => simp [collapseWs] at hc
  | cons a l =>
    have ha : isSpaceChar a = false := h a rfl
    rw [collapseWs_cons_nonspace a l ha] at hc
    simp only [List.head?_cons, Option.some.injEq] at hc
    subst hc
    exact ha

theorem noAdjSpace_collapseWs : ∀ s : Str, NoAdjSpace (collapseWs s) := by
  intro s
  induction s using collapseWs.induct with
  | case1 => simp [collapseWs, NoAdjSpace]
  | case2 c hc => rw [collapseWs, if_pos hc]; simp [NoAdjSpace]
  | case3 c hc => rw [collapseWs, if_neg hc]; simp [NoAdjSpace]
  | case4 c d cs h1 h2 ih => rw [collapseWs, if_pos h1, if_pos h2]; exact ih
  | case5 c d cs h1 h2 ih =>
    rw [collapseWs, if_pos h1, if_neg h2]
    have h2' : isSpaceChar d = false := by simpa using h2
    rw [collapseWs_cons_nonspace d cs h2'] at ih ⊢
    exact List.chain'_cons.mpr ⟨by simp [h2'], ih⟩
  | case6 c d cs h1 ih =>
    rw [collapseWs, if_neg h1]
    have h1' : isSpaceChar c = false := by simpa using h1
    refine List.chain'_cons'.mpr ⟨?_, ih⟩
    intro b _
    simp [h1']

theorem noTrailSpace_cons {a : Char} {l : Str} (h : NoTrailSpace (a :: l)) (hl : l ≠ []) :
    NoTrailSpace l := by
  intro c hc
  apply h c
  cases l with
  | nil => exact absurd rfl hl
  | cons b bs => rw [List.getLast?_cons_cons]; exact hc

theorem noTrailSpace_collapseWs : ∀ s : Str, NoTrailSpace s → NoTrailSpace (collapseWs s) := by
  intro s
  induction s using collapseWs.induct with
  | case1 => intro _; simp [collapseWs, NoTrailSpace]
  | case2 c hc =>
    intro h
    exact absurd (h c rfl) (by simp [hc])
  | case3 c hc =>
    intro h
    rw [collapseWs, if_neg hc]
    exact h
  | case4 c d cs h1 h2 ih =>
    intro h
    rw [collapseWs, if_pos h1, if_pos h2]
    exact ih (noTrailSpace_cons h (by simp))
  | case5 c d cs h1 h2 ih =>
    intro h
    rw [collapseWs, if_pos h1, if_neg h2]
    have htail := ih (noTrailSpace_cons h (by simp))
    intro x hx
    apply htail x
    have hne : collapseWs (d :: cs) ≠ [] := collapseWs_ne_nil _ (by simp)
    cases hcd : collapseWs (d :: cs) with
    | nil => exact absurd hcd hne
    | cons y ys =>
      rw [hcd] at hx
      rw [List.getLast?_cons_cons] at hx
      exact hx
  | case6 c d cs h1 ih =>
    intro h
    rw [collapseWs, if_neg h1]
    have htail := ih (noTrailSpace_cons h (by simp))
    intro x hx
    apply htail x
    have hne : collapseWs (d :: cs) ≠ [] := collapseWs_ne_nil _ (by simp)
    cases hcd : collapseWs (d :: cs) with
    | nil => exact absurd hcd hne
    | cons y ys =>
      rw [hcd] at hx
      rw [List.getLast?_cons_cons] at hx
      exact hx

theorem lowerStr_eq_self {s : Str} (h : ∀ c ∈ s, Char.toLower c = c) :
    lowerStr s = s := by
  induction s with
  | nil => rfl
  | cons a l ih =>
    simp only [lowerStr, List.map_cons]
    rw [h a (List.mem_cons_self _ _)]
    have := ih (fun c hc => h c (List.mem_cons_of_mem _ hc))
    simp only [lowerStr] at this
    rw [this]

theorem dropWhile_eq_self_of_noLead {s : Str} (h : NoLeadSpace s) :
    s.dropWhile isSpaceChar = s := by
  cases s with
  | nil => rfl
  | cons a l =>
    have := h a rfl
    rw [List.dropWhile_cons_of_neg (by simp [this])]

theorem trimStr_eq_self {s : Str} (h1 : NoLeadSpace s) (h2 : NoTrailSpace s) :
    trimStr s = s := by
  unfold trimStr
  rw [dropWhile_eq_self_of_noLead h1]
  have hrev : NoLeadSpace s.reverse := by
    intro c hc
    apply h2 c
    rw [← List.getLast?_reverse, List.reverse_reverse] at hc
    exact hc
  rw [dropWhile_eq_self_of_noLead hrev, List.reverse_reverse]

theorem collapseWs_eq_self :
    ∀ s : Str, (∀ c ∈ s, isSpaceChar c = true → c = ' ') → NoAdjSpace s →
      collapseWs s = s := by
  intro s
  induction s using collapseWs.induct with
  | case1 => intro _ _; rfl
  | case2 c hc =>
    intro hall _
    rw [collapseWs, if_pos hc, hall c (List.mem_singleton.mpr rfl) hc]
  | case3 c hc =>
    intro _ _
    rw [collapseWs, if_neg hc]
  | case4 c d cs h1 h2 ih =>
    intro _ hadj
    have := (List.chain'_cons.mp hadj).1
    rw [h1, h2] at this
    simp at this
  | case5 c d cs h1 h2 ih =>
    intro hall hadj
    rw [collapseWs, if_pos h1, if_neg h2]
    rw [hall c (List.mem_cons_self _ _) h1]
    rw [ih (fun x hx hs => hall x (List.mem_cons_of_mem _ hx) hs) (List.chain'_cons.mp hadj).2]
  | case6 c d cs h1 ih =>
    intro hall hadj
    rw [collapseWs, if_neg h1]
    rw [ih (fun x hx hs => hall x (List.mem_cons_of_mem _ hx) hs) (List.chain'_cons.mp hadj).2]

theorem stripPunct_eq_self {s : Str}
    (h : ∀ c ∈ s, (isWordChar c || isSpaceChar c) = true) : stripPunct s = s :=
  List.filter_eq_self.mpr h

theorem goodChars_normalize (s : Str) : GoodChars (normalizeIngredientName s) := by
  intro c hc
  unfold normalizeIngredientName stripPunct at hc
  have hc' := List.mem_filter.mp hc
  obtain ⟨hc1, hc2⟩ := hc'
  rcases mem_collapseWs c _ hc1 with h | ⟨h3, h4⟩
  · subst h
    constructor
    · simp
    · rfl
  · have hword : isWordChar c = true := by
      rcases Bool.or_eq_true_iff.mp hc2 with h | h
      · exact h
      · rw [h4] at h
        cases h
    constructor
    · rw [hword]
      simp
    · have hmem : c ∈ lowerStr s := mem_of_mem_trimStr h3
      obtain ⟨c', _, hcc⟩ := List.mem_map.mp hmem
      rw [← hcc]
      exact toLower_toLower c'

theorem goodChars_space_eq {z : Str} (h : GoodChars z) :
    ∀ c ∈ z, isSpaceChar c = true → c = ' ' := by
  intro c hc hs
  rcases Bool.or_eq_true_iff.mp (h c hc).1 with hw | hsp
  · rw [isWordChar_space_false c hs] at hw
    cases hw
  · exact of_decide_eq_true hsp

theorem normalize_of_goodChars {z : Str} (h : GoodChars z) :
    normalizeIngredientName z = collapseWs (trimStr z) := by
  unfold normalizeIngredientName
  rw [lowerStr_eq_self (fun c hc => (h c hc).2)]
  apply stripPunct_eq_self
  intro c hc
  rcases mem_collapseWs c _ hc with h' | ⟨h3, h4⟩
  · subst h'
    decide
  · rcases Bool.or_eq_true_iff.mp ((h c (mem_of_mem_trimStr h3)).1) with hw | hsp
    · rw [hw]
      simp
    · have : c = ' ' := of_decide_eq_true hsp
      subst this
      decide

theorem goodChars_collapse_trim {z : Str} (h : GoodChars z) :
    GoodChars (collapseWs (trimStr z)) := by
  intro c hc
  rcases mem_collapseWs c _ hc with h' | ⟨h3, _⟩
  · subst h'
    exact ⟨by simp, rfl⟩
  · exact h c (mem_of_mem_trimStr h3)

theorem normalize_eq_self {z : Str} (hg : GoodChars z) (hl : NoLeadSpace z)
    (ht : NoTrailSpace z) (ha : NoAdjSpace z) : normalizeIngredientName z = z := by
  unfold normalizeIngredientName
  rw [lowerStr_eq_self (fun c hc => (hg c hc).2), trimStr_eq_self hl ht,
    collapseWs_eq_self z (goodChars_space_eq hg) ha]
  apply stripPunct_eq_self
  intro c hc
  rcases Bool.or_eq_true_iff.mp (hg c hc).1 with hw | hsp
  · rw [hw]
    simp
  · have : c = ' ' := of_decide_eq_true hsp
    subst this
    decide

/-- C4 (counterexample): canonicalization is not idempotent.  Punctuation is
stripped *after* whitespace is collapsed and trimmed, so `"a !"`
canonicalizes to `"a "` (trailing space), which re-canonicalizes to `"a"`. -/
theorem normalize_not_idempotent :
    normalizeIngredientName "a !".toList = "a ".toList ∧
    normalizeIngredientName (normalizeIngredientName "a !".toList) = "a".toList ∧
    normalizeIngredientName (normalizeIngredientName "a !".toList) ≠
      normalizeIngredientName "a !".toList := by
  refine ⟨by decide, by decide, by decide⟩

/-- C4 (amended): one extra application reaches a fixed point — applying the
canonicalizer twice is idempotent (the double application is the function
that actually satisfies the spec's invariant). -/
theorem normalize_twice_idempotent :
    ∀ s : Str,
      normalizeIngredientName (normalizeIngredientName (normalizeIngredientName s)) =
        normalizeIngredientName (normalizeIngredientName s) := by
  intro s
  have hgy : GoodChars (normalizeIngredientName s) := goodChars_normalize s
  have hz : normalizeIngredientName (normalizeIngredientName s) =
      collapseWs (trimStr (normalizeIngredientName s)) := normalize_of_goodChars hgy
  rw [hz]
  exact normalize_eq_self (goodChars_collapse_trim hgy)
    (noLeadSpace_collapseWs (noLeadSpace_trimStr _))
    (noTrailSpace_collapseWs _ (noTrailSpace_trimStr _))
    (noAdjSpace_collapseWs _)
